import Mathlib

/-!
Verification of the fatigue accumulation and decay model of the
fitness-fatigue tracker.  The core is embedded shallowly: fatigue scores
are exact rationals (the idealized real-number semantics of the
JavaScript numbers used by the source), the fatigue state is a total
function from the closed muscle enumeration to scores, and each
state-changing operation of the source (initialisation, per-day decay,
session accumulation with spillover, history removal) is a pure Lean
function mirroring the corresponding source code.
-/

namespace FatigueTracker

/-- The closed set of muscle-group identifiers (`MuscleKey` in the source). -/
inductive MuscleKey where
  | Chest
  | Back
  | Shoulders
  | Biceps
  | Triceps
  | Quads
  | Hamstrings
  | Glutes
  | Calves
  | Core
  | Cardio
deriving DecidableEq, Repr, Fintype

/-- A registry entry: identifier plus display label (`Muscle` in the source). -/
structure Muscle where
  key : MuscleKey
  label : String
deriving DecidableEq, Repr

/-- The fixed ordered registry (`MUSCLES` in the source). -/
def MUSCLES : List Muscle :=
  [ ⟨.Chest, "Pectorales"⟩
  , ⟨.Back, "Espalda"⟩
  , ⟨.Shoulders, "Hombros"⟩
  , ⟨.Biceps, "Bíceps"⟩
  , ⟨.Triceps, "Tríceps"⟩
  , ⟨.Quads, "Cuádriceps"⟩
  , ⟨.Hamstrings, "Isquiotibiales"⟩
  , ⟨.Glutes, "Glúteos"⟩
  , ⟨.Calves, "Gemelos"⟩
  , ⟨.Core, "Core"⟩
  , ⟨.Cardio, "Cardio"⟩ ]

/-- A fatigue state: a total map from muscle group to score (`FatigueMap`). -/
def FatigueMap : Type := MuscleKey → ℚ

/-- Model parameter: decay rate in points per day (`DECAY_PER_DAY = 18`). -/
def DECAY_PER_DAY : ℚ := 18

/-- Model parameter: load factor (`LOAD_FACTOR = 0.7`). -/
def LOAD_FACTOR : ℚ := 0.7

/-- Model parameter: base fatigue per session (`SESSION_BASE = 4`). -/
def SESSION_BASE : ℚ := 4

/-- `initFatigue`: every muscle group starts at score 0. -/
def initFatigue : FatigueMap := fun _ => 0

/-- The decay effect applied on mount: when `0 < days`, every group's score
becomes `max 0 (old - rate * days)`; otherwise the state is returned
unchanged (the source only calls `setFatigue` when `days > 0`). -/
def decay (prev : FatigueMap) (days : ℕ) (rate : ℚ) : FatigueMap :=
  if 0 < days then (fun m => max 0 (prev m - rate * (days : ℚ))) else prev

/-- A logged workout session (`Session` in the source). -/
structure Session where
  id : String
  date : String
  muscle : MuscleKey
  minutes : ℚ
  load : ℚ
  notes : Option String
deriving DecidableEq, Repr

/-- The fixed directional spillover table (`neighbors` in `addSession`). -/
def neighbors : MuscleKey → List MuscleKey
  | .Chest => [.Triceps, .Shoulders]
  | .Back => [.Biceps, .Shoulders]
  | .Shoulders => [.Chest, .Back]
  | .Biceps => [.Back]
  | .Triceps => [.Chest]
  | .Quads => [.Glutes, .Hamstrings]
  | .Hamstrings => [.Glutes, .Quads]
  | .Glutes => [.Quads, .Hamstrings]
  | .Calves => [.Quads]
  | .Core => [.Back, .Chest]
  | .Cardio => [.Calves, .Quads]

/-- JavaScript `Math.round`: round half toward positive infinity. -/
def jsRound (x : ℚ) : ℤ := ⌊x + 1/2⌋

/-- The direct fatigue delta of a session:
`SESSION_BASE + LOAD_FACTOR * load * minutes`. -/
def sessionDelta (s : Session) : ℚ :=
  SESSION_BASE + LOAD_FACTOR * s.load * s.minutes

/-- The spillover amount: `Math.round(delta * 0.1)` of the unclamped delta. -/
def sessionSpill (s : Session) : ℚ :=
  (jsRound (sessionDelta s * 0.1) : ℚ)

/-- One spillover step of the `forEach` in `addSession`:
`next[n] = Math.min(100, next[n] + spill)`. -/
def spillTo (sp : ℚ) (acc : FatigueMap) (n : MuscleKey) : FatigueMap :=
  fun m => if m = n then min 100 (acc m + sp) else acc m

/-- The direct-contribution step of `addSession`:
`next[session.muscle] = Math.min(100, next[session.muscle] + delta)`. -/
def targetBump (prev : FatigueMap) (s : Session) : FatigueMap :=
  fun m => if m = s.muscle then min 100 (prev m + sessionDelta s) else prev m

/-- The fatigue update performed by `addSession`: clamp the target at 100
after adding the delta, then add the rounded spill to each neighbor,
each clamped at 100 independently. -/
def addSessionFatigue (prev : FatigueMap) (s : Session) : FatigueMap :=
  (neighbors s.muscle).foldl (spillTo (sessionSpill s)) (targetBump prev s)

/-- The history update performed by `addSession`: prepend the new session. -/
def addSessionHistory (prev : List Session) (s : Session) : List Session :=
  s :: prev

/-- Removal from the history log (`removeSession`):
`prev.filter (h => h.id !== id)`. -/
def removeSessionLog (log : List Session) (i : String) : List Session :=
  log.filter (fun h => h.id != i)

/-- The application state touched by `removeSession`: the source's
`removeSession` only updates `history`, never `fatigue`. -/
structure AppState where
  fatigue : FatigueMap
  history : List Session

/-- `removeSession` at the state level: filters the history, leaves fatigue
untouched. -/
def removeSession (st : AppState) (i : String) : AppState :=
  { st with history := removeSessionLog st.history i }

/-- Sessions as constructed by `addSession` satisfy `minutes ≥ 1` and
`1 ≤ load ≤ 5` (the source clamps at construction). -/
def ValidSession (s : Session) : Prop :=
  1 ≤ s.minutes ∧ 1 ≤ s.load ∧ s.load ≤ 5

/-- The fatigue invariant: every group's score lies in `[0, 100]`. -/
def InRange (f : FatigueMap) : Prop :=
  ∀ m, 0 ≤ f m ∧ f m ≤ 100

-- Helper lemmas about the spillover fold.

lemma spillTo_ne (sp : ℚ) (acc : FatigueMap) (n m : MuscleKey) (h : m ≠ n) :
    spillTo sp acc n m = acc m := by
  simp [spillTo, h]

lemma spillTo_eq (sp : ℚ) (acc : FatigueMap) (n : MuscleKey) :
    spillTo sp acc n n = min 100 (acc n + sp) := by
  simp [spillTo]

lemma foldl_spillTo_not_mem (sp : ℚ) (l : List MuscleKey) (f : FatigueMap)
    (m : MuscleKey) (hm : m ∉ l) :
    l.foldl (spillTo sp) f m = f m := by
  induction l generalizing f with
  | nil => rfl
  | cons a t ih =>
    have hma : m ≠ a := fun h => hm (h ▸ List.mem_cons_self a t)
    have hmt : m ∉ t := fun h => hm (List.mem_cons_of_mem a h)
    simp only [List.foldl_cons]
    rw [ih _ hmt, spillTo_ne sp f a m hma]

lemma foldl_spillTo_mem (sp : ℚ) (l : List MuscleKey) (f : FatigueMap)
    (m : MuscleKey) (hnd : l.Nodup) (hm : m ∈ l) :
    l.foldl (spillTo sp) f m = min 100 (f m + sp) := by
  induction l generalizing f with
  | nil => cases hm
  | cons a t ih =>
    simp only [List.foldl_cons]
    rcases List.mem_cons.mp hm with h | h
    · subst h
      have hmt : m ∉ t := (List.nodup_cons.mp hnd).1
      rw [foldl_spillTo_not_mem sp t _ m hmt, spillTo_eq]
    · have hma : m ≠ a := by
        rintro rfl
        exact (List.nodup_cons.mp hnd).1 h
      rw [ih _ (List.nodup_cons.mp hnd).2 h, spillTo_ne sp f a m hma]

lemma foldl_spillTo_le (sp : ℚ) (l : List MuscleKey) (f : FatigueMap)
    (h : ∀ m, f m ≤ 100) : ∀ m, l.foldl (spillTo sp) f m ≤ 100 := by
  induction l generalizing f with
  | nil => exact h
  | cons a t ih =>
    simp only [List.foldl_cons]
    refine ih _ ?_
    intro m
    by_cases hma : m = a
    · subst hma
      rw [spillTo_eq]
      exact min_le_left _ _
    · rw [spillTo_ne sp f a m hma]
      exact h m

lemma foldl_spillTo_nonneg (sp : ℚ) (hsp : 0 ≤ sp) (l : List MuscleKey)
    (f : FatigueMap) (h : ∀ m, 0 ≤ f m) :
    ∀ m, 0 ≤ l.foldl (spillTo sp) f m := by
  induction l generalizing f with
  | nil => exact h
  | cons a t ih =>
    simp only [List.foldl_cons]
    refine ih _ ?_
    intro m
    by_cases hma : m = a
    · subst hma
      rw [spillTo_eq]
      exact le_min (by norm_num) (add_nonneg (h m) hsp)
    · rw [spillTo_ne sp f a m hma]
      exact h m

lemma muscle_not_mem_own_neighbors : ∀ m : MuscleKey, m ∉ neighbors m := by
  decide

lemma neighbors_nodup : ∀ m : MuscleKey, (neighbors m).Nodup := by
  decide

lemma sessionDelta_nonneg (s : Session) (hs : ValidSession s) :
    0 ≤ sessionDelta s := by
  unfold sessionDelta SESSION_BASE LOAD_FACTOR
  nlinarith [hs.1, hs.2.1]

lemma sessionSpill_nonneg (s : Session) (hs : ValidSession s) :
    0 ≤ sessionSpill s := by
  have hδ : 0 ≤ sessionDelta s := sessionDelta_nonneg s hs
  unfold sessionSpill jsRound
  have : (0 : ℤ) ≤ ⌊sessionDelta s * 0.1 + 1/2⌋ := by
    apply Int.floor_nonneg.mpr
    nlinarith
  exact_mod_cast this

lemma addSessionFatigue_target (prev : FatigueMap) (s : Session) :
    addSessionFatigue prev s s.muscle
      = min 100 (prev s.muscle + sessionDelta s) := by
  unfold addSessionFatigue
  rw [foldl_spillTo_not_mem _ _ _ _ (muscle_not_mem_own_neighbors s.muscle)]
  simp [targetBump]

lemma addSessionFatigue_neighbor (prev : FatigueMap) (s : Session)
    (n : MuscleKey) (hn : n ∈ neighbors s.muscle) :
    addSessionFatigue prev s n = min 100 (prev n + sessionSpill s) := by
  have hne : n ≠ s.muscle := by
    rintro rfl
    exact muscle_not_mem_own_neighbors s.muscle hn
  unfold addSessionFatigue
  rw [foldl_spillTo_mem _ _ _ _ (neighbors_nodup s.muscle) hn]
  simp [targetBump, hne]

lemma addSessionFatigue_other (prev : FatigueMap) (s : Session)
    (m : MuscleKey) (hm : m ≠ s.muscle) (hn : m ∉ neighbors s.muscle) :
    addSessionFatigue prev s m = prev m := by
  unfold addSessionFatigue
  rw [foldl_spillTo_not_mem _ _ _ _ hn]
  simp [targetBump, hm]

/-- C1: every reachable fatigue state assigns every muscle group of the
fixed eleven-entry registry a score in `[0, 100]`: the state is a total
map over the registry, `initFatigue` is in range, and the range invariant
is preserved by every decay (nonnegative rate) and every application of a
valid session. -/
theorem fatigue_invariant :
    MUSCLES.length = 11 ∧
    (∀ m : MuscleKey, m ∈ MUSCLES.map Muscle.key) ∧
    InRange initFatigue ∧
    (∀ (f : FatigueMap) (days : ℕ) (rate : ℚ),
      0 ≤ rate → InRange f → InRange (decay f days rate)) ∧
    (∀ (f : FatigueMap) (s : Session),
      ValidSession s → InRange f → InRange (addSessionFatigue f s)) := by
  refine ⟨rfl, by decide, ?_, ?_, ?_⟩
  · intro m
    constructor <;> norm_num [initFatigue]
  · intro f days rate hrate hf m
    by_cases hd : 0 < days
    · simp only [decay, if_pos hd]
      constructor
      · exact le_max_left _ _
      · apply max_le (by norm_num)
        have h1 : 0 ≤ rate * (days : ℚ) :=
          mul_nonneg hrate (Nat.cast_nonneg days)
        linarith [(hf m).2]
    · simp only [decay, if_neg hd]
      exact hf m
  · intro f s hs hf m
    have hδ : 0 ≤ sessionDelta s := sessionDelta_nonneg s hs
    have hsp : 0 ≤ sessionSpill s := sessionSpill_nonneg s hs
    have hlo : ∀ x, 0 ≤ targetBump f s x := by
      intro x
      unfold targetBump
      by_cases hx : x = s.muscle
      · rw [if_pos hx]
        exact le_min (by norm_num) (add_nonneg (hf x).1 hδ)
      · rw [if_neg hx]
        exact (hf x).1
    have hhi : ∀ x, targetBump f s x ≤ 100 := by
      intro x
      unfold targetBump
      by_cases hx : x = s.muscle
      · rw [if_pos hx]
        exact min_le_left _ _
      · rw [if_neg hx]
        exact (hf x).2
    unfold addSessionFatigue
    exact ⟨foldl_spillTo_nonneg _ hsp _ _ hlo m, foldl_spillTo_le _ _ _ hhi m⟩

/-- Witness for C1: the invariant theorem applied at the all-zero state, a
two-day decay at the reference rate, and a concrete valid chest session. -/
theorem fatigue_invariant_witness :
    InRange (decay initFatigue 2 DECAY_PER_DAY) ∧
    InRange (addSessionFatigue initFatigue
      ⟨"w1", "2024-01-01", MuscleKey.Chest, 45, 3, none⟩) := by
  have h0 : InRange initFatigue := fatigue_invariant.2.2.1
  exact ⟨fatigue_invariant.2.2.2.1 initFatigue 2 DECAY_PER_DAY
          (by norm_num [DECAY_PER_DAY]) h0,
        fatigue_invariant.2.2.2.2 initFatigue _
          (by norm_num [ValidSession]) h0⟩

/-- C2: for every in-range state, decay at a nonnegative rate sets every
group's score to `max 0 (old - rate * days)`; the reference rate is 18
points per day; the result is never negative and is non-increasing as the
elapsed day count grows. -/
theorem decay_formula (f : FatigueMap) (rate : ℚ)
    (hf : ∀ m, 0 ≤ f m) (hrate : 0 ≤ rate) :
    DECAY_PER_DAY = 18 ∧
    (∀ (days : ℕ) (m : MuscleKey),
      decay f days rate m = max 0 (f m - rate * (days : ℚ))) ∧
    (∀ (days : ℕ) (m : MuscleKey), 0 ≤ decay f days rate m) ∧
    (∀ (d1 d2 : ℕ) (m : MuscleKey),
      d1 ≤ d2 → decay f d2 rate m ≤ decay f d1 rate m) := by
  have hform : ∀ (days : ℕ) (m : MuscleKey),
      decay f days rate m = max 0 (f m - rate * (days : ℚ)) := by
    intro days m
    rcases Nat.eq_zero_or_pos days with h0 | hpos
    · subst h0
      simp [decay, max_eq_right (hf m)]
    · simp [decay, hpos]
  refine ⟨rfl, hform, ?_, ?_⟩
  · intro days m
    rw [hform]
    exact le_max_left _ _
  · intro d1 d2 m h
    rw [hform, hform]
    apply max_le_max le_rfl
    have hc : (d1 : ℚ) ≤ (d2 : ℚ) := by exact_mod_cast h
    have : rate * (d1 : ℚ) ≤ rate * (d2 : ℚ) :=
      mul_le_mul_of_nonneg_left hc hrate
    linarith

/-- Witness for C2: the decay formula evaluated at the all-zero state with
the reference rate, three elapsed days, and the chest group. -/
theorem decay_formula_witness :
    decay initFatigue 3 DECAY_PER_DAY MuscleKey.Chest
      = max 0 (initFatigue MuscleKey.Chest - DECAY_PER_DAY * ((3 : ℕ) : ℚ)) :=
  (decay_formula initFatigue DECAY_PER_DAY
    (fun m => by norm_num [initFatigue])
    (by norm_num [DECAY_PER_DAY])).2.1 3 MuscleKey.Chest

/-- C3: decay with zero elapsed days returns the state itself, unchanged,
for every state and every rate. -/
theorem decay_zero_identity (f : FatigueMap) (rate : ℚ) :
    decay f 0 rate = f := rfl

/-- C4: applying a valid session to an in-range state never pushes any
group above 100; the target's new score is `min 100 (old + delta)` and each
synergist's new score is `min 100 (old + spill)`, clamped independently. -/
theorem addSession_no_overflow (f : FatigueMap) (s : Session)
    (hs : ValidSession s) (hf : InRange f) :
    (∀ m, addSessionFatigue f s m ≤ 100) ∧
    addSessionFatigue f s s.muscle = min 100 (f s.muscle + sessionDelta s) ∧
    (∀ n ∈ neighbors s.muscle,
      addSessionFatigue f s n = min 100 (f n + sessionSpill s)) := by
  refine ⟨?_, addSessionFatigue_target f s,
          fun n hn => addSessionFatigue_neighbor f s n hn⟩
  intro m
  unfold addSessionFatigue
  apply foldl_spillTo_le
  intro x
  unfold targetBump
  by_cases hx : x = s.muscle
  · rw [if_pos hx]
    exact min_le_left _ _
  · rw [if_neg hx]
    exact (hf x).2

/-- Witness for C4: the bound evaluated for a concrete chest session on the
all-zero state. -/
theorem addSession_no_overflow_witness :
    addSessionFatigue initFatigue
      ⟨"w4", "2024-01-02", MuscleKey.Chest, 45, 3, none⟩ MuscleKey.Chest
      ≤ 100 :=
  (addSession_no_overflow initFatigue
    ⟨"w4", "2024-01-02", MuscleKey.Chest, 45, 3, none⟩
    (by norm_num [ValidSession])
    (fun m => by norm_num [initFatigue])).1 MuscleKey.Chest

/-- C5: from the all-zero state, a session on Chest of 45 minutes at load 3
has direct delta `4 + 0.7 * 3 * 45 = 98.5`, so Chest goes to exactly 98.5,
and spill `round 9.85 = 10` goes to Triceps and Shoulders, each exactly 10. -/
theorem chest_scenario :
    sessionDelta ⟨"s1", "2024-01-01", MuscleKey.Chest, 45, 3, none⟩ = 98.5 ∧
    sessionSpill ⟨"s1", "2024-01-01", MuscleKey.Chest, 45, 3, none⟩ = 10 ∧
    addSessionFatigue initFatigue
      ⟨"s1", "2024-01-01", MuscleKey.Chest, 45, 3, none⟩ MuscleKey.Chest
      = 98.5 ∧
    addSessionFatigue initFatigue
      ⟨"s1", "2024-01-01", MuscleKey.Chest, 45, 3, none⟩ MuscleKey.Triceps
      = 10 ∧
    addSessionFatigue initFatigue
      ⟨"s1", "2024-01-01", MuscleKey.Chest, 45, 3, none⟩ MuscleKey.Shoulders
      = 10 := by
  have hδ : sessionDelta ⟨"s1", "2024-01-01", MuscleKey.Chest, 45, 3, none⟩
      = 98.5 := by
    norm_num [sessionDelta, SESSION_BASE, LOAD_FACTOR]
  have hsp : sessionSpill ⟨"s1", "2024-01-01", MuscleKey.Chest, 45, 3, none⟩
      = 10 := by
    norm_num [sessionSpill, sessionDelta, jsRound, SESSION_BASE, LOAD_FACTOR]
  refine ⟨hδ, hsp, ?_, ?_, ?_⟩
  · rw [show addSessionFatigue initFatigue
        ⟨"s1", "2024-01-01", MuscleKey.Chest, 45, 3, none⟩ MuscleKey.Chest
        = min 100 (initFatigue MuscleKey.Chest
            + sessionDelta ⟨"s1", "2024-01-01", MuscleKey.Chest, 45, 3, none⟩)
      from addSessionFatigue_target initFatigue _, hδ]
    norm_num [initFatigue, min_def]
  · rw [show addSessionFatigue initFatigue
        ⟨"s1", "2024-01-01", MuscleKey.Chest, 45, 3, none⟩ MuscleKey.Triceps
        = min 100 (initFatigue MuscleKey.Triceps
            + sessionSpill ⟨"s1", "2024-01-01", MuscleKey.Chest, 45, 3, none⟩)
      from addSessionFatigue_neighbor initFatigue _ MuscleKey.Triceps
        (by decide), hsp]
    norm_num [initFatigue, min_def]
  · rw [show addSessionFatigue initFatigue
        ⟨"s1", "2024-01-01", MuscleKey.Chest, 45, 3, none⟩ MuscleKey.Shoulders
        = min 100 (initFatigue MuscleKey.Shoulders
            + sessionSpill ⟨"s1", "2024-01-01", MuscleKey.Chest, 45, 3, none⟩)
      from addSessionFatigue_neighbor initFatigue _ MuscleKey.Shoulders
        (by decide), hsp]
    norm_num [initFatigue, min_def]

/-- C6: the spill amount is `round (0.1 * delta)` of the unclamped direct
delta, and a synergist whose score plus spill stays at or below 100 gains
exactly the spill. -/
theorem spill_exact (f : FatigueMap) (s : Session) (n : MuscleKey)
    (hn : n ∈ neighbors s.muscle) (hcap : f n + sessionSpill s ≤ 100) :
    sessionSpill s
      = ((⌊(SESSION_BASE + LOAD_FACTOR * s.load * s.minutes) * 0.1 + 1/2⌋ : ℤ) : ℚ) ∧
    addSessionFatigue f s n = f n + sessionSpill s := by
  constructor
  · rfl
  · rw [addSessionFatigue_neighbor f s n hn, min_eq_right hcap]

/-- Witness for C6: the Triceps neighbor of a chest session on the all-zero
state gains exactly the spill. -/
theorem spill_exact_witness :
    addSessionFatigue initFatigue
      ⟨"s6", "2024-01-03", MuscleKey.Chest, 45, 3, none⟩ MuscleKey.Triceps
      = initFatigue MuscleKey.Triceps
        + sessionSpill ⟨"s6", "2024-01-03", MuscleKey.Chest, 45, 3, none⟩ :=
  (spill_exact initFatigue ⟨"s6", "2024-01-03", MuscleKey.Chest, 45, 3, none⟩
    MuscleKey.Triceps (by decide)
    (by norm_num [initFatigue, sessionSpill, sessionDelta, jsRound,
      SESSION_BASE, LOAD_FACTOR])).2

/-- C7: the synergist table is fixed and directional with at most two
entries per muscle; Chest maps to Triceps and Shoulders while Triceps maps
to Chest only; the relation is not symmetrized (Calves points to Quads but
not conversely); and a session changes no group outside the target and the
table's neighbors of the target (spill is first-degree only). -/
theorem neighbors_table :
    (∀ m, (neighbors m).length ≤ 2) ∧
    neighbors MuscleKey.Chest = [MuscleKey.Triceps, MuscleKey.Shoulders] ∧
    neighbors MuscleKey.Triceps = [MuscleKey.Chest] ∧
    (MuscleKey.Quads ∈ neighbors MuscleKey.Calves ∧
      MuscleKey.Calves ∉ neighbors MuscleKey.Quads) ∧
    (∀ (f : FatigueMap) (s : Session) (m : MuscleKey),
      m ≠ s.muscle → m ∉ neighbors s.muscle →
        addSessionFatigue f s m = f m) :=
  ⟨by decide, rfl, rfl, by decide,
    fun f s m hm hn => addSessionFatigue_other f s m hm hn⟩

/-- Witness for C7: Back is neither target nor neighbor of a chest session,
so its score is untouched. -/
theorem neighbors_table_witness :
    addSessionFatigue initFatigue
      ⟨"s7", "2024-01-04", MuscleKey.Chest, 45, 3, none⟩ MuscleKey.Back
      = initFatigue MuscleKey.Back :=
  neighbors_table.2.2.2.2 initFatigue
    ⟨"s7", "2024-01-04", MuscleKey.Chest, 45, 3, none⟩ MuscleKey.Back
    (by decide) (by decide)

lemma removeSessionLog_all_kept (log : List Session) (i : String)
    (h : ∀ b ∈ log, b.id ≠ i) : removeSessionLog log i = log := by
  unfold removeSessionLog
  apply List.filter_eq_self.mpr
  intro b hb
  simpa using h b hb

/-- C8: on a history log whose identifiers are unique (the log invariant),
`removeSession` removes at most one entry; removing an absent identifier
returns the log unchanged; and removal is idempotent. -/
theorem remove_semantics (log : List Session) (i : String) :
    ((log.map Session.id).Nodup →
      log.length ≤ (removeSessionLog log i).length + 1) ∧
    (i ∉ log.map Session.id → removeSessionLog log i = log) ∧
    removeSessionLog (removeSessionLog log i) i = removeSessionLog log i := by
  refine ⟨?_, ?_, ?_⟩
  · intro hnd
    induction log with
    | nil => simp [removeSessionLog]
    | cons a t ih =>
      rw [List.map_cons, List.nodup_cons] at hnd
      by_cases ha : a.id = i
      · have ht : removeSessionLog t i = t := by
          apply removeSessionLog_all_kept
          intro b hb hbi
          exact hnd.1 (by
            rw [ha, ← hbi]
            exact List.mem_map_of_mem Session.id hb)
        have hfc : removeSessionLog (a :: t) i = removeSessionLog t i := by
          simp [removeSessionLog, List.filter_cons, ha]
        rw [hfc, ht, List.length_cons]
      · have hlen := ih hnd.2
        have hfc : removeSessionLog (a :: t) i = a :: removeSessionLog t i := by
          simp [removeSessionLog, List.filter_cons, ha]
        rw [hfc, List.length_cons, List.length_cons]
        omega
  · intro hni
    apply removeSessionLog_all_kept
    intro b hb hbi
    exact hni (hbi ▸ List.mem_map_of_mem Session.id hb)
  · unfold removeSessionLog
    rw [List.filter_filter]
    simp

/-- Witness for C8: a concrete two-entry log with distinct identifiers:
removing "a" drops at most one entry, and removing the absent "c" is the
identity. -/
theorem remove_semantics_witness :
    ([⟨"a", "d1", MuscleKey.Chest, 30, 2, none⟩,
      ⟨"b", "d2", MuscleKey.Back, 20, 1, none⟩] : List Session).length
      ≤ (removeSessionLog
          [⟨"a", "d1", MuscleKey.Chest, 30, 2, none⟩,
           ⟨"b", "d2", MuscleKey.Back, 20, 1, none⟩] "a").length + 1 ∧
    removeSessionLog
        [⟨"a", "d1", MuscleKey.Chest, 30, 2, none⟩,
         ⟨"b", "d2", MuscleKey.Back, 20, 1, none⟩] "c"
      = [⟨"a", "d1", MuscleKey.Chest, 30, 2, none⟩,
         ⟨"b", "d2", MuscleKey.Back, 20, 1, none⟩] :=
  ⟨(remove_semantics _ "a").1 (by simp),
   (remove_semantics _ "c").2.1 (by simp)⟩

/-- C9: removing a session by identifier leaves the fatigue state exactly as
it was (the fatigue delta the session caused is never reversed), and a
session stays in the history precisely when it was there and its identifier
differs from the removed one. -/
theorem remove_preserves_fatigue (st : AppState) (i : String) :
    (removeSession st i).fatigue = st.fatigue ∧
    (∀ s : Session,
      s ∈ (removeSession st i).history ↔ s ∈ st.history ∧ s.id ≠ i) := by
  refine ⟨rfl, ?_⟩
  intro s
  simp [removeSession, removeSessionLog, List.mem_filter]

/-- Witness for C9: removing the only session of a concrete state leaves
the all-zero fatigue map untouched. -/
theorem remove_preserves_fatigue_witness :
    (removeSession
      ⟨initFatigue, [⟨"a", "d1", MuscleKey.Chest, 30, 2, none⟩]⟩ "a").fatigue
      = initFatigue :=
  (remove_preserves_fatigue
    ⟨initFatigue, [⟨"a", "d1", MuscleKey.Chest, 30, 2, none⟩]⟩ "a").1

/-- C10: applying a session changes at most the target muscle and the
neighbors the fixed table lists for it; every other group's score is the
input's. -/
theorem addSession_frame (f : FatigueMap) (s : Session) (m : MuscleKey)
    (hm : m ≠ s.muscle) (hn : m ∉ neighbors s.muscle) :
    addSessionFatigue f s m = f m :=
  addSessionFatigue_other f s m hm hn

/-- Witness for C10: Quads is neither the target nor a neighbor of a chest
session, so its score is unchanged. -/
theorem addSession_frame_witness :
    addSessionFatigue initFatigue
      ⟨"s10", "2024-01-05", MuscleKey.Chest, 45, 3, none⟩ MuscleKey.Quads
      = initFatigue MuscleKey.Quads :=
  addSession_frame initFatigue
    ⟨"s10", "2024-01-05", MuscleKey.Chest, 45, 3, none⟩ MuscleKey.Quads
    (by decide) (by decide)

end FatigueTracker
